import Mathlib

/-
Verification development for the recontext package (src/context.go).

Shallow embedding. A Go Context is a tree node; the parent pointer
(the embedded Context field of cancelCtx and valueCtx) is immutable
after construction and is therefore kept structurally in the Ctx
inductive. The mutable part of a cancelCtx (the lazily created done
channel, err, cause, children) lives in a heap, World.cancels, keyed
by allocation order. Channels are modelled as numeric identities; the
set of closed channels is World.closed; the reusable pre-closed
sentinel channel closedchan is channel 0. Go panics are modelled as
the Option none result. Locks disappear in this sequential model:
each operation is one atomic step, and double-checked initialization
collapses to a single check.
-/

namespace ReContext

/-- Go error values: the package level Canceled error plus arbitrary
caller supplied errors, tagged by a number. A Go nil error is
represented as the surrounding Option none. -/
inductive GoErr where
  | canceled
  | mk (n : Nat)
deriving DecidableEq

/-- The package level Canceled error (context.go line 19). -/
def Canceled : GoErr := GoErr.canceled

/-- Values of Go interface type any, as used for Value keys and
results. GoVal.sentinel models the address of the unexported package
variable cancelCtxKey (context.go line 90); since the variable is
unexported, code outside the package can never hold this key.
GoVal.cancelPtr models a pointer to a cancelCtx as surfaced by a
Value lookup with the sentinel key. Every GoVal admits decidable
equality, so the comparability check of WithValue always passes. -/
inductive GoVal where
  | nil
  | str (s : String)
  | int (n : Int)
  | sentinel
  | cancelPtr (id : Nat)
deriving DecidableEq

/-- Context tree nodes. background and todo are the two emptyCtx
singletons (context.go lines 50-53). Ctx.cancel is a cancelCtx
pointer: the heap id names its mutable record, the parent field is
the embedded Context. Ctx.value is a valueCtx (context.go 304-307). -/
inductive Ctx where
  | background
  | todo
  | cancel (id : Nat) (parent : Ctx)
  | value (parent : Ctx) (key val : GoVal)
deriving DecidableEq

/-- The mutable fields of a cancelCtx (context.go 174-185): the done
channel (none while the atomic.Value is empty), err, cause, and the
children map (none models a nil Go map, some a non-nil one; map keys
are the heap ids of the child cancelCtx values). -/
structure CancelState where
  done : Option Nat
  err : Option GoErr
  cause : Option GoErr
  children : Option (List Nat)
deriving DecidableEq

/-- The mutable program state: the cancelCtx heap, the next fresh heap
id, the set of closed channels, and the next fresh channel id. -/
structure World where
  cancels : Nat → Option CancelState
  nextCancel : Nat
  closed : List Nat
  nextChan : Nat

/-- The reusable already closed channel (context.go 167-172). -/
def closedchan : Nat := 0

/-- The state at process start: empty heap, closedchan closed. -/
def initialWorld : World := ⟨fun _ => none, 0, [closedchan], 1⟩

/-- Store a cancelCtx record at a heap id. -/
def World.setCancel (w : World) (id : Nat) (st : CancelState) : World :=
  { w with cancels := fun j => if j = id then some st else w.cancels j }

/-- The free function value (context.go 333-360): iterative walk up
the parent chain. The default case of the Go switch handles context
implementations from outside the package; the closed Ctx type has
none, so it does not appear. -/
def value : Ctx → GoVal → GoVal
  | Ctx.value p k v, key => if key = k then v else value p key
  | Ctx.cancel id p, key =>
      if key = GoVal.sentinel then GoVal.cancelPtr id else value p key
  | Ctx.background, _ => GoVal.nil
  | Ctx.todo, _ => GoVal.nil

/-- The Value method: emptyCtx.Value (context.go 36-38) returns nil,
cancelCtx.Value (187-192) answers the sentinel key with the receiver
and otherwise delegates to value on the parent, valueCtx.Value
(326-331) compares its own key first. -/
def Ctx.Value : Ctx → GoVal → GoVal
  | Ctx.background, _ => GoVal.nil
  | Ctx.todo, _ => GoVal.nil
  | Ctx.cancel id p, key =>
      if key = GoVal.sentinel then GoVal.cancelPtr id else ReContext.value p key
  | Ctx.value p k v, key => if k = key then v else ReContext.value p key

/-- The Done method. emptyCtx.Done (context.go 28-30) returns a nil
channel. valueCtx has no Done of its own, so the embedded parent is
promoted. cancelCtx.Done (194-212) returns the published channel if
present, otherwise creates, publishes and returns a fresh unfired
channel; the lock and re-check collapse in this sequential model.
The result pairs the returned channel with the possibly updated
state. -/
def Ctx.Done : Ctx → World → Option Nat × World
  | Ctx.background, w => (none, w)
  | Ctx.todo, w => (none, w)
  | Ctx.value p _ _, w => Ctx.Done p w
  | Ctx.cancel id _, w =>
      match w.cancels id with
      | none => (none, w)
      | some st =>
          match st.done with
          | some d => (some d, w)
          | none =>
              (some w.nextChan,
               { w.setCancel id { st with done := some w.nextChan } with
                   nextChan := w.nextChan + 1 })

/-- The Err method. emptyCtx.Err (context.go 32-34) returns nil,
valueCtx promotes the parent, cancelCtx.Err (215-220) reads its own
err under the lock. -/
def Ctx.Err : Ctx → World → Option GoErr
  | Ctx.background, _ => none
  | Ctx.todo, _ => none
  | Ctx.value p _ _, w => Ctx.Err p w
  | Ctx.cancel id _, w => Option.bind (w.cancels id) CancelState.err

/-- The Deadline method. emptyCtx.Deadline (context.go 24-26) returns
the zero time and false; cancelCtx and valueCtx promote the embedded
parent. Time is modelled as Nat. -/
def Ctx.Deadline : Ctx → World → Nat × Bool
  | Ctx.background, _ => (0, false)
  | Ctx.todo, _ => (0, false)
  | Ctx.value p _ _, w => Ctx.Deadline p w
  | Ctx.cancel _ p, w => Ctx.Deadline p w

/-- Cause (context.go 94-101): looks up the nearest cancelCtx with
the sentinel key through the Value method and returns its cause;
returns nil when the type assertion fails. -/
def Cause (c : Ctx) (w : World) : Option GoErr :=
  match c.Value GoVal.sentinel with
  | GoVal.cancelPtr id => Option.bind (w.cancels id) CancelState.cause
  | _ => none

/-- The branch logic of parentCancelCtx (context.go 122-143) after
parent.Done() has been evaluated: give up when done is the closed
sentinel or nil, when the sentinel lookup is not a cancelCtx, or when
that candidate publishes a different channel than done. -/
def parentCancelCtxFind (parent : Ctx) (d : Option Nat) (w : World) : Option Nat :=
  match d with
  | none => none
  | some ch =>
      if ch = closedchan then none
      else
        match parent.Value GoVal.sentinel with
        | GoVal.cancelPtr pid =>
            match w.cancels pid with
            | none => none
            | some st => if st.done = some ch then some pid else none
        | _ => none

/-- parentCancelCtx (context.go 122-143). Calling parent.Done() may
publish a fresh channel, so the world is threaded through. -/
def parentCancelCtx (parent : Ctx) (w : World) : Option Nat × World :=
  let r := Ctx.Done parent w
  (parentCancelCtxFind parent r.1 r.2, r.2)

/-- removeChild (context.go 146-160): if the parent resolves to a
cancelCtx whose children map is non-nil, delete the child from it. -/
def removeChild (parent : Ctx) (child : Nat) (w : World) : World :=
  let r := parentCancelCtx parent w
  match r.1 with
  | none => r.2
  | some pid =>
      match r.2.cancels pid with
      | none => r.2
      | some st =>
          match st.children with
          | none => r.2
          | some cs =>
              r.2.setCancel pid
                { st with children := some (cs.filter (fun x => x != child)) }

/-- The done firing step inside cancel (context.go 262-269): when no
channel was published yet, store the pre-closed sentinel; otherwise
close the published channel. Closing an already closed channel is a
Go panic, modelled as none. -/
def fireDone (st : CancelState) (closed : List Nat) : Option (Nat × List Nat) :=
  match st.done with
  | none => some (closedchan, closed)
  | some d => if d ∈ closed then none else some (d, d :: closed)

/-- Recording a cancellation on one node (context.go 259-269): set
err and cause and publish the fired channel returned by fireDone. -/
def recordCancel (w : World) (id : Nat) (st : CancelState) (e cause : GoErr)
    (dc : Nat × List Nat) : World :=
  { w.setCancel id { st with err := some e, cause := some cause, done := some dc.1 } with
      closed := dc.2 }

/-- Setting the children map to nil after the cascade (context.go 278). -/
def clearChildren (w : World) (id : Nat) : World :=
  match w.cancels id with
  | none => w
  | some st2 => w.setCancel id { st2 with children := none }

/-- cancelCtx.cancel (context.go 242-285), fuel indexed to bound the
cascade into children (the fuel never runs out on states built by the
API, whose children sets are in fact always empty). A none result is
a Go panic: a nil err, or closing an already closed channel. Order
follows the source: nil err check, cause defaulting, the early
return when err is already set (which also skips removeChild),
recording err and cause and firing the done channel (fireDone and
recordCancel), cascading into the children with removeFromParent
false, clearing the children map, and finally removeChild on the
embedded parent when removeFromParent is true. Cascaded calls never
use their parent argument, so a placeholder is passed. -/
def cancelRec : Nat → Nat → Bool → Ctx → Option GoErr → Option GoErr → World → Option World
  | 0, _, _, _, _, _, _ => none
  | fuel + 1, id, removeFromParent, parent, eo, co, w =>
      match eo with
      | none => none
      | some e =>
          let cause := co.getD e
          match w.cancels id with
          | none => none
          | some st =>
              if st.err.isSome then some w
              else
                match fireDone st w.closed with
                | none => none
                | some dc =>
                    match
                      (st.children.getD []).foldlM
                        (fun acc childId =>
                          cancelRec fuel childId false Ctx.background (some e) (some cause) acc)
                        (recordCancel w id st e cause dc) with
                    | none => none
                    | some w2 =>
                        if removeFromParent then
                          some (removeChild parent id (clearChildren w2 id))
                        else some (clearChildren w2 id)

/-- The cancel method on a cancelCtx receiver: the receiver carries
its heap id and embedded parent. The fuel bounds the cascade depth by
the number of allocated cancelCtx records plus one, which suffices
for every state built by the API. -/
def cancelCtxCancel (c : Ctx) (removeFromParent : Bool) (eo co : Option GoErr) (w : World) :
    Option World :=
  match c with
  | Ctx.cancel id parent => cancelRec (w.nextCancel + 1) id removeFromParent parent eo co w
  | _ => none

/-- propagateCancel (context.go 105-118): evaluate parent.Done(); a
nil channel means the parent never cancels; a fired channel cancels
the child synchronously with the parent err and cause; otherwise the
select falls through to default and nothing further happens - in
particular the child is never added to any children set. -/
def propagateCancel (parent : Ctx) (child : Ctx) (w : World) : Option World :=
  let r := Ctx.Done parent w
  match r.1 with
  | none => some r.2
  | some d =>
      if d ∈ r.2.closed then
        cancelCtxCancel child false (Ctx.Err parent r.2) (Cause parent r.2) r.2
      else some r.2

/-- newCancelCtx (context.go 66-68): allocate a fresh cancelCtx
wrapping the parent, all mutable fields zero. -/
def newCancelCtx (parent : Ctx) (w : World) : Ctx × World :=
  (Ctx.cancel w.nextCancel parent,
   { w.setCancel w.nextCancel ⟨none, none, none, none⟩ with nextCancel := w.nextCancel + 1 })

/-- withCancel (context.go 77-88): allocate, then propagateCancel. A
nil parent cannot be represented in Ctx, so the nil-parent panic has
no counterpart here. -/
def withCancel (parent : Ctx) (w : World) : Ctx × Option World :=
  let cw := newCancelCtx parent w
  (cw.1, propagateCancel parent cw.1 cw.2)

/-- WithCancel (context.go 72-75) returns the child; the returned
CancelFunc is cancelFn applied to that child. -/
def WithCancel (parent : Ctx) (w : World) : Ctx × Option World :=
  withCancel parent w

/-- The CancelFunc closure returned by WithCancel (context.go 74):
cancel with removeFromParent true, the Canceled error and nil cause. -/
def cancelFn (c : Ctx) (w : World) : Option World :=
  cancelCtxCancel c true (some Canceled) none w

/-- WithValue (context.go 288-301): panics on a nil key (a nil parent
is unrepresentable in Ctx, and every GoVal is comparable, so those
two checks always pass here). -/
def WithValue (parent : Ctx) (key val : GoVal) : Option Ctx :=
  if key = GoVal.nil then none
  else some (Ctx.value parent key val)

/-- Spec side description, for the C5 refinement only: the nearest
enclosing CancelScope reached by walking up the parent chain,
skipping value wrappers and stopping at the empty scopes. It is
compared against the lookup based Cause of the source. -/
def specNearestCancel : Ctx → Option Nat
  | Ctx.background => none
  | Ctx.todo => none
  | Ctx.cancel id _ => some id
  | Ctx.value p _ _ => specNearestCancel p

/-- A context whose value wrappers never carry the private sentinel
key. Every context built from outside the package satisfies this,
since cancelCtxKey is unexported and its address cannot be forged. -/
def noSentinelKeys : Ctx → Bool
  | Ctx.value p k _ => (k != GoVal.sentinel) && noSentinelKeys p
  | Ctx.cancel _ p => noSentinelKeys p
  | Ctx.background => true
  | Ctx.todo => true

/-- The key is stored at no value node of the parent chain. -/
def keyAbsent : Ctx → GoVal → Bool
  | Ctx.value p k _, key => (key != k) && keyAbsent p key
  | Ctx.cancel _ p, key => keyAbsent p key
  | Ctx.background, _ => true
  | Ctx.todo, _ => true

/-- Demonstration trace built through the API, used by the concrete
theorems and witnesses: P = WithCancel(Background), C = WithCancel(P),
G = WithValue(C, a, 1); wA is the state after creating P, wB after
additionally creating C, wC after then canceling P, and wPB the state
in which P was canceled directly after its creation. -/
def ctxP : Ctx := Ctx.cancel 0 Ctx.background

def ctxC : Ctx := Ctx.cancel 1 ctxP

def ctxG : Ctx := Ctx.value ctxC (GoVal.str "a") (GoVal.int 1)

def wA : World := ((WithCancel Ctx.background initialWorld).2).getD initialWorld

def wB : World := ((WithCancel ctxP wA).2).getD initialWorld

def wC : World := (cancelFn ctxP wB).getD initialWorld

def wPB : World := (cancelFn ctxP wA).getD initialWorld

/-- The Value method agrees with the free lookup function value on
every node of the closed Ctx type. -/
theorem method_value_eq (c : Ctx) (key : GoVal) : Ctx.Value c key = value c key := by
  cases c with
  | background => rfl
  | todo => rfl
  | cancel id p => rfl
  | value p k v =>
    by_cases h : k = key
    · simp [Ctx.Value, value, h]
    · have h2 : ¬(key = k) := fun e => h e.symm
      simp [Ctx.Value, value, h, h2]

/-- On a chain free of forged sentinel keys, the sentinel lookup
returns exactly the nearest enclosing cancelCtx. -/
theorem value_sentinel (c : Ctx) (h : noSentinelKeys c = true) :
    value c GoVal.sentinel =
      (match specNearestCancel c with
       | some id => GoVal.cancelPtr id
       | none => GoVal.nil) := by
  induction c with
  | background => rfl
  | todo => rfl
  | cancel id p ih => simp [value, specNearestCancel]
  | value p k v ih =>
    have hk : (k != GoVal.sentinel) = true ∧ noSentinelKeys p = true := by
      simpa [noSentinelKeys, Bool.and_eq_true] using h
    have hk2 : ¬(GoVal.sentinel = k) := by
      intro e
      exact bne_iff_ne.mp hk.1 e.symm
    simp [value, specNearestCancel, hk2, ih hk.2]

/-- An absent, non sentinel key resolves to nil through the walk. -/
theorem value_absent (c : Ctx) (key : GoVal)
    (hk : key ≠ GoVal.sentinel) (ha : keyAbsent c key = true) :
    value c key = GoVal.nil := by
  induction c with
  | background => rfl
  | todo => rfl
  | cancel id p ih =>
    have hp : keyAbsent p key = true := by simpa [keyAbsent] using ha
    simp [value, hk, ih hp]
  | value p k v ih =>
    have hkk : (key != k) = true ∧ keyAbsent p key = true := by
      simpa [keyAbsent, Bool.and_eq_true] using ha
    have hne : ¬(key = k) := bne_iff_ne.mp hkk.1
    simp [value, hne, ih hkk.2]

/-- Calling Done a second time returns the same channel and leaves
the state untouched: the channel is created at most once. -/
theorem Done_idem (c : Ctx) (w : World) : Ctx.Done c (Ctx.Done c w).2 = Ctx.Done c w := by
  induction c generalizing w with
  | background => rfl
  | todo => rfl
  | value p k v ih => simpa [Ctx.Done] using ih w
  | cancel id p ih =>
    cases hst : w.cancels id with
    | none => simp [Ctx.Done, hst]
    | some st =>
      cases hd : st.done with
      | some d => simp [Ctx.Done, hst, hd]
      | none => simp [Ctx.Done, hst, hd, World.setCancel]

/-- Done only publishes channels: it never touches the closed set,
the allocation counters, nor the err, cause or children fields, and a
published channel is never replaced. -/
theorem Done_frame (c : Ctx) (w : World) :
    (Ctx.Done c w).2.closed = w.closed ∧
    (Ctx.Done c w).2.nextCancel = w.nextCancel ∧
    (∀ j, w.cancels j = none → (Ctx.Done c w).2.cancels j = none) ∧
    (∀ j st, w.cancels j = some st →
      ∃ st2, (Ctx.Done c w).2.cancels j = some st2 ∧
        st2.err = st.err ∧ st2.cause = st.cause ∧ st2.children = st.children ∧
        (st2.done = st.done ∨ st.done = none)) := by
  induction c generalizing w with
  | background => exact ⟨rfl, rfl, fun j h => h, fun j st h => ⟨st, h, rfl, rfl, rfl, Or.inl rfl⟩⟩
  | todo => exact ⟨rfl, rfl, fun j h => h, fun j st h => ⟨st, h, rfl, rfl, rfl, Or.inl rfl⟩⟩
  | value p k v ih => simpa [Ctx.Done] using ih w
  | cancel id p ih =>
    cases hst : w.cancels id with
    | none =>
      have hD : Ctx.Done (Ctx.cancel id p) w = (none, w) := by simp [Ctx.Done, hst]
      rw [hD]
      exact ⟨rfl, rfl, fun j h => h, fun j st1 h => ⟨st1, h, rfl, rfl, rfl, Or.inl rfl⟩⟩
    | some st =>
      cases hd : st.done with
      | some d =>
        have hD : Ctx.Done (Ctx.cancel id p) w = (some d, w) := by simp [Ctx.Done, hst, hd]
        rw [hD]
        exact ⟨rfl, rfl, fun j h => h, fun j st1 h => ⟨st1, h, rfl, rfl, rfl, Or.inl rfl⟩⟩
      | none =>
        have hD : Ctx.Done (Ctx.cancel id p) w =
            (some w.nextChan,
             { w.setCancel id { st with done := some w.nextChan } with
                 nextChan := w.nextChan + 1 }) := by
          simp [Ctx.Done, hst, hd]
        rw [hD]
        refine ⟨rfl, rfl, ?_, ?_⟩
        · intro j h
          by_cases hj : j = id
          · subst hj; rw [h] at hst; exact Option.noConfusion hst
          · simp [World.setCancel, hj, h]
        · intro j st1 h
          by_cases hj : j = id
          · subst hj
            have hss : st1 = st := by
              rw [h] at hst; exact Option.some.inj hst
            subst hss
            refine ⟨{ st1 with done := some w.nextChan }, ?_, rfl, rfl, rfl, Or.inr hd⟩
            simp [World.setCancel]
          · exact ⟨st1, by simp [World.setCancel, hj, h], rfl, rfl, rfl, Or.inl rfl⟩

/-- removeChild only shrinks children sets: closed set, counters, err
and cause are untouched, published channels are never replaced, a nil
children map stays nil, and no id is ever added to a children set. -/
theorem removeChild_frame (p : Ctx) (cid : Nat) (w : World) :
    (removeChild p cid w).closed = w.closed ∧
    (removeChild p cid w).nextCancel = w.nextCancel ∧
    (∀ j, w.cancels j = none → (removeChild p cid w).cancels j = none) ∧
    (∀ j st, w.cancels j = some st →
      ∃ st2, (removeChild p cid w).cancels j = some st2 ∧
        st2.err = st.err ∧ st2.cause = st.cause ∧
        (st2.done = st.done ∨ st.done = none) ∧
        (st.children = none → st2.children = none) ∧
        (∀ x, x ∈ st2.children.getD [] → x ∈ st.children.getD [])) := by
  obtain ⟨hcl, hnc, hnone, hsome⟩ := Done_frame p w
  have hbase : ∀ u : World, u = (Ctx.Done p w).2 →
      u.closed = w.closed ∧ u.nextCancel = w.nextCancel ∧
      (∀ j, w.cancels j = none → u.cancels j = none) ∧
      (∀ j st, w.cancels j = some st →
        ∃ st2, u.cancels j = some st2 ∧
          st2.err = st.err ∧ st2.cause = st.cause ∧
          (st2.done = st.done ∨ st.done = none) ∧
          (st.children = none → st2.children = none) ∧
          (∀ x, x ∈ st2.children.getD [] → x ∈ st.children.getD [])) := by
    intro u hu
    subst hu
    refine ⟨hcl, hnc, hnone, ?_⟩
    intro j st h
    obtain ⟨st2, h2, he, hc, hch, hdo⟩ := hsome j st h
    exact ⟨st2, h2, he, hc, hdo, fun hn => hch ▸ hn, fun x hx => by rw [hch] at hx; exact hx⟩
  unfold removeChild parentCancelCtx
  cases hf : parentCancelCtxFind p (Ctx.Done p w).1 (Ctx.Done p w).2 with
  | none => simpa [hf] using hbase (Ctx.Done p w).2 rfl
  | some pid =>
    obtain ⟨bcl, bnc, bnone, bsome⟩ := hbase (Ctx.Done p w).2 rfl
    cases hpe : (Ctx.Done p w).2.cancels pid with
    | none => simpa [hf, hpe] using hbase (Ctx.Done p w).2 rfl
    | some pst =>
      cases hpc : pst.children with
      | none => simpa [hf, hpe, hpc] using hbase (Ctx.Done p w).2 rfl
      | some cs =>
        simp only [hf, hpe, hpc, World.setCancel]
        refine ⟨bcl, bnc, ?_, ?_⟩
        · intro j h
          by_cases hj : j = pid
          · subst hj
            rw [bnone j h] at hpe; cases hpe
          · simpa [hj] using bnone j h
        · intro j st h
          by_cases hj : j = pid
          · subst hj
            obtain ⟨st2, h2, he, hc, hdo, hchn, hchm⟩ := bsome j st h
            rw [h2] at hpe
            cases hpe
            refine ⟨{ pst with children := some (cs.filter (fun x => x != cid)) },
              by simp, he, hc, hdo, ?_, ?_⟩
            · intro hn
              rw [hchn hn] at hpc; cases hpc
            · intro x hx
              apply hchm
              simp only [hpc, Option.getD_some] at hx ⊢
              exact List.mem_of_mem_filter hx
          · obtain ⟨st2, h2, he, hc, hdo, hchn, hchm⟩ := bsome j st h
            exact ⟨st2, by simpa [hj] using h2, he, hc, hdo, hchn, hchm⟩


/-- Firing the done channel succeeds whenever the published channel,
if any, is not closed yet, and only ever grows the closed set. -/
theorem fireDone_spec (st : CancelState) (closed : List Nat)
    (hd : ∀ d, st.done = some d → d ∉ closed) :
    ∃ ch cl, fireDone st closed = some (ch, cl) ∧
      (closedchan ∈ closed → ch ∈ cl) ∧ (∀ x, x ∈ closed → x ∈ cl) := by
  cases hdo : st.done with
  | none => exact ⟨closedchan, closed, by simp [fireDone, hdo], fun h => h, fun x hx => hx⟩
  | some d =>
    refine ⟨d, d :: closed, ?_, fun _ => List.mem_cons_self d closed,
      fun x hx => List.mem_cons_of_mem d hx⟩
    simp [fireDone, hdo, hd d hdo]

/-- Workhorse: an effective cancellation of a node whose children map
is nil (as for every node this code ever builds, registration being
absent) records err, defaults the cause, fires the done channel, and
leaves every other record essentially unchanged; in particular no id
is ever added to a children set. -/
theorem cancelRec_step (fuel id : Nat) (b : Bool) (p : Ctx) (e : GoErr) (co : Option GoErr)
    (w : World) (st : CancelState)
    (hst : w.cancels id = some st) (he : st.err = none) (hk : st.children = none)
    (hd : ∀ d, st.done = some d → d ∉ w.closed) :
    ∃ w3 ch, cancelRec (fuel + 1) id b p (some e) co w = some w3 ∧
      (∃ stf, w3.cancels id = some stf ∧ stf.done = some ch ∧ stf.err = some e ∧
        stf.cause = some (co.getD e) ∧ stf.children = none) ∧
      (closedchan ∈ w.closed → ch ∈ w3.closed) ∧
      w3.nextCancel = w.nextCancel ∧
      (∀ j, w.cancels j = none → w3.cancels j = none) ∧
      (∀ j st1, w.cancels j = some st1 → j ≠ id →
        ∃ st2, w3.cancels j = some st2 ∧
          st2.err = st1.err ∧ st2.cause = st1.cause ∧
          (st2.done = st1.done ∨ st1.done = none) ∧
          (st1.children = none → st2.children = none) ∧
          (∀ x, x ∈ st2.children.getD [] → x ∈ st1.children.getD [])) := by
  have hIsSome : st.err.isSome = false := by rw [he]; rfl
  obtain ⟨ch, cl, hdc, hchcl, hclsub⟩ := fireDone_spec st w.closed hd
  have hW1id : (recordCancel w id st e (co.getD e) (ch, cl)).cancels id =
      some { st with err := some e, cause := some (co.getD e), done := some ch } := by
    simp [recordCancel, World.setCancel]
  have hW1other : ∀ j, j ≠ id →
      (recordCancel w id st e (co.getD e) (ch, cl)).cancels j = w.cancels j := by
    intro j hj
    simp [recordCancel, World.setCancel, hj]
  have hW3id : (clearChildren (recordCancel w id st e (co.getD e) (ch, cl)) id).cancels id =
      some ⟨some ch, some e, some (co.getD e), none⟩ := by
    simp [clearChildren, hW1id, World.setCancel]
  have hW3other : ∀ j, j ≠ id →
      (clearChildren (recordCancel w id st e (co.getD e) (ch, cl)) id).cancels j =
        w.cancels j := by
    intro j hj
    simp [clearChildren, hW1id, World.setCancel, hj, hW1other j hj]
  have hW3closed : (clearChildren (recordCancel w id st e (co.getD e) (ch, cl)) id).closed = cl := by
    simp [clearChildren, hW1id, World.setCancel, recordCancel]
  have hW3next :
      (clearChildren (recordCancel w id st e (co.getD e) (ch, cl)) id).nextCancel =
        w.nextCancel := by
    simp [clearChildren, hW1id, World.setCancel, recordCancel]
  have hEq : cancelRec (fuel + 1) id b p (some e) co w =
      (if b then
        some (removeChild p id (clearChildren (recordCancel w id st e (co.getD e) (ch, cl)) id))
      else
        some (clearChildren (recordCancel w id st e (co.getD e) (ch, cl)) id)) := by
    simp only [cancelRec, hst, hIsSome, Bool.false_eq_true, if_false, hdc, hk,
      Option.getD_none, List.foldlM_nil, Option.pure_def]
  cases b with
  | false =>
    refine ⟨clearChildren (recordCancel w id st e (co.getD e) (ch, cl)) id, ch,
      by rw [hEq]; rfl, ⟨_, hW3id, rfl, rfl, rfl, rfl⟩,
      fun hin => by rw [hW3closed]; exact hchcl hin, hW3next, ?_, ?_⟩
    · intro j hjn
      have hj : j ≠ id := fun hji => by rw [hji, hst] at hjn; exact Option.noConfusion hjn
      rw [hW3other j hj]
      exact hjn
    · intro j st1 h1 hj
      exact ⟨st1, by rw [hW3other j hj]; exact h1, rfl, rfl, Or.inl rfl,
        fun hn => hn, fun x hx => hx⟩
  | true =>
    obtain ⟨rcl, rnc, rnone, rsome⟩ := removeChild_frame p id
      (clearChildren (recordCancel w id st e (co.getD e) (ch, cl)) id)
    obtain ⟨stf, hstf, hferr, hfcause, hfdone, hfchn, hfchm⟩ := rsome id _ hW3id
    have hfdone2 : stf.done = some ch := by
      cases hfdone with
      | inl hh => exact hh
      | inr hh => exact Option.noConfusion hh
    refine ⟨removeChild p id (clearChildren (recordCancel w id st e (co.getD e) (ch, cl)) id),
      ch, by rw [hEq]; rfl, ⟨stf, hstf, hfdone2, hferr, hfcause, hfchn rfl⟩,
      fun hin => by rw [rcl, hW3closed]; exact hchcl hin,
      rnc.trans hW3next, ?_, ?_⟩
    · intro j hjn
      have hj : j ≠ id := fun hji => by rw [hji, hst] at hjn; exact Option.noConfusion hjn
      exact rnone j (by rw [hW3other j hj]; exact hjn)
    · intro j st1 h1 hj
      obtain ⟨st2, h2, herr2, hcause2, hdone2, hchn2, hchm2⟩ :=
        rsome j st1 (by rw [hW3other j hj]; exact h1)
      exact ⟨st2, h2, herr2, hcause2, hdone2, hchn2, hchm2⟩

/-- A successful cancel never allocates or frees cancelCtx records:
the heap domain and the allocation counter are unchanged, whatever
the fuel, the receiver and the arguments. -/
theorem cancelRec_frame : ∀ (fuel id : Nat) (b : Bool) (p : Ctx) (eo co : Option GoErr)
    (w w2 : World), cancelRec fuel id b p eo co w = some w2 →
    w2.nextCancel = w.nextCancel ∧ ∀ j, (w2.cancels j).isSome = (w.cancels j).isSome := by
  intro fuel
  induction fuel with
  | zero =>
    intro id b p eo co w w2 h
    exact Option.noConfusion h
  | succ fuel ih =>
    intro id b p eo co w w2 h
    cases eo with
    | none => exact Option.noConfusion h
    | some e =>
      simp only [cancelRec] at h
      cases hst : w.cancels id with
      | none =>
        simp only [hst] at h
        exact Option.noConfusion h
      | some st =>
        simp only [hst] at h
        by_cases herr : st.err.isSome
        · rw [if_pos herr] at h
          cases h
          exact ⟨rfl, fun j => rfl⟩
        · rw [if_neg herr] at h
          cases hdc : fireDone st w.closed with
          | none =>
            simp only [hdc] at h
            exact Option.noConfusion h
          | some dc =>
            simp only [hdc] at h
            have hrn : (recordCancel w id st e (co.getD e) dc).nextCancel = w.nextCancel := rfl
            have hrs : ∀ j, ((recordCancel w id st e (co.getD e) dc).cancels j).isSome
                = (w.cancels j).isSome := by
              intro j
              by_cases hj : j = id
              · subst hj
                simp [recordCancel, World.setCancel, hst]
              · simp [recordCancel, World.setCancel, hj]
            have hkids : ∀ (l : List Nat) (wa wb : World),
                l.foldlM (fun acc childId =>
                  cancelRec fuel childId false Ctx.background (some e) (some (co.getD e)) acc)
                  wa = some wb →
                wb.nextCancel = wa.nextCancel ∧
                ∀ j, (wb.cancels j).isSome = (wa.cancels j).isSome := by
              intro l
              induction l with
              | nil =>
                intro wa wb hh
                rw [List.foldlM_nil] at hh
                cases hh
                exact ⟨rfl, fun j => rfl⟩
              | cons a t iht =>
                intro wa wb hh
                rw [List.foldlM_cons] at hh
                cases hstep : cancelRec fuel a false Ctx.background
                    (some e) (some (co.getD e)) wa with
                | none =>
                  rw [hstep] at hh
                  exact Option.noConfusion hh
                | some wm =>
                  rw [hstep] at hh
                  obtain ⟨h1, h2⟩ := ih a false Ctx.background (some e) (some (co.getD e)) wa wm hstep
                  obtain ⟨h3, h4⟩ := iht wm wb hh
                  exact ⟨h3.trans h1, fun j => (h4 j).trans (h2 j)⟩
            cases hfold : (st.children.getD []).foldlM
                (fun acc childId =>
                  cancelRec fuel childId false Ctx.background (some e) (some (co.getD e)) acc)
                (recordCancel w id st e (co.getD e) dc) with
            | none =>
              rw [hfold] at h
              exact Option.noConfusion h
            | some wf =>
              simp only [hfold] at h
              obtain ⟨hfn, hfs⟩ := hkids _ _ _ hfold
              have hchain : ∀ j, ((clearChildren wf id).cancels j).isSome
                  = (w.cancels j).isSome := by
                intro j
                have hcc : ((clearChildren wf id).cancels j).isSome = (wf.cancels j).isSome := by
                  cases hwf : wf.cancels id with
                  | none => simp [clearChildren, hwf]
                  | some st2 =>
                    by_cases hj : j = id
                    · subst hj
                      simp [clearChildren, hwf, World.setCancel]
                    · simp [clearChildren, hwf, World.setCancel, hj]
                exact hcc.trans ((hfs j).trans (hrs j))
              have hchainN : (clearChildren wf id).nextCancel = w.nextCancel := by
                have hcn : (clearChildren wf id).nextCancel = wf.nextCancel := by
                  cases hwf : wf.cancels id with
                  | none => simp [clearChildren, hwf]
                  | some st2 => simp [clearChildren, hwf, World.setCancel]
                exact hcn.trans (hfn.trans hrn)
              cases b with
              | false =>
                rw [if_neg Bool.false_ne_true] at h
                cases h
                exact ⟨hchainN, hchain⟩
              | true =>
                rw [if_pos rfl] at h
                cases h
                obtain ⟨rcl, rnc, rnone, rsome⟩ := removeChild_frame p id (clearChildren wf id)
                refine ⟨rnc.trans hchainN, ?_⟩
                intro j
                cases hu : (clearChildren wf id).cancels j with
                | none =>
                  calc ((removeChild p id (clearChildren wf id)).cancels j).isSome
                      = (none : Option CancelState).isSome := by rw [rnone j hu]
                    _ = ((clearChildren wf id).cancels j).isSome := by rw [hu]
                    _ = (w.cancels j).isSome := hchain j
                | some stj =>
                  obtain ⟨st2, h2, _, _, _, _, _⟩ := rsome j stj hu
                  calc ((removeChild p id (clearChildren wf id)).cancels j).isSome
                      = (some st2).isSome := by rw [h2]
                    _ = ((clearChildren wf id).cancels j).isSome := by simp [hu]
                    _ = (w.cancels j).isSome := hchain j

/-- C1: the spec states that WithCancel registers the new child into
the children set of the nearest ancestor CancelScope, so that a later
cancellation of the parent makes the child report a non nil Err with
the cause of the cascade ancestor. The source never registers:
propagateCancel (context.go 105-118) only handles a parent that is
already canceled. Evaluating the code on the trace P = WithCancel
(Background), C = WithCancel(P), then cancel P: the children set of P
is still nil when P is canceled, P reports Canceled, and C reports no
error and no cause at all, contradicting the claim. The source doc
comment of propagateCancel itself promises propagation to children,
so the code, not the claim, is at fault. -/
theorem propagateCancel_missing_registration :
    (WithCancel Ctx.background initialWorld).1 = ctxP ∧
    (WithCancel Ctx.background initialWorld).2 = some wA ∧
    (WithCancel ctxP wA).1 = ctxC ∧
    (WithCancel ctxP wA).2 = some wB ∧
    (wB.cancels 0).map CancelState.children = some none ∧
    cancelFn ctxP wB = some wC ∧
    Ctx.Err ctxP wC = some Canceled ∧
    Cause ctxP wC = some Canceled ∧
    Ctx.Err ctxC wC = none ∧
    Cause ctxC wC = none := by
  exact ⟨rfl, rfl, rfl, rfl, by decide, rfl, by decide, by decide, by decide, by decide⟩

/-- C2: deriving a cancelable child from a parent whose done signal
has already fired yields a child that is canceled immediately and
synchronously: its Err is the parent recorded error, its cause is the
parent cause, and the child is never added to any children set (no
membership in any children set is created by the construction). -/
theorem withCancel_from_canceled_parent (parent : Ctx) (w : World) (ch : Nat) (e cz : GoErr)
    (hdone : Ctx.Done parent ((newCancelCtx parent w).2) = (some ch, (newCancelCtx parent w).2))
    (hclosed : ch ∈ ((newCancelCtx parent w).2).closed)
    (herr : Ctx.Err parent ((newCancelCtx parent w).2) = some e)
    (hcause : Cause parent ((newCancelCtx parent w).2) = some cz) :
    ∃ w2, (WithCancel parent w).2 = some w2 ∧
      Ctx.Err (WithCancel parent w).1 w2 = some e ∧
      Cause (WithCancel parent w).1 w2 = some cz ∧
      (∀ j st x, w2.cancels j = some st → x ∈ st.children.getD [] →
        ∃ st0, ((newCancelCtx parent w).2).cancels j = some st0 ∧
          x ∈ st0.children.getD []) := by
  have hfst : (WithCancel parent w).1 = Ctx.cancel w.nextCancel parent := rfl
  have hsnd : (WithCancel parent w).2 =
      propagateCancel parent (Ctx.cancel w.nextCancel parent) ((newCancelCtx parent w).2) := rfl
  have hprop : propagateCancel parent (Ctx.cancel w.nextCancel parent)
      ((newCancelCtx parent w).2) =
      cancelCtxCancel (Ctx.cancel w.nextCancel parent) false (some e) (some cz)
        ((newCancelCtx parent w).2) := by
    simp only [propagateCancel, hdone]
    simp [hclosed, herr, hcause]
  have hfresh : ((newCancelCtx parent w).2).cancels w.nextCancel =
      some ⟨none, none, none, none⟩ := by
    simp [newCancelCtx, World.setCancel]
  obtain ⟨w3, ch2, hrun, ⟨stf, hstf, hstfd, hstfe, hstfc, hstfk⟩, hcin, hnext, hnone2, hsome2⟩ :=
    cancelRec_step ((newCancelCtx parent w).2).nextCancel w.nextCancel false parent e (some cz)
      ((newCancelCtx parent w).2) ⟨none, none, none, none⟩ hfresh rfl rfl
      (fun d hdd => Option.noConfusion hdd)
  refine ⟨w3, ?_, ?_, ?_, ?_⟩
  · rw [hsnd, hprop]
    exact hrun
  · rw [hfst]
    simp [Ctx.Err, hstf, hstfe]
  · rw [hfst]
    simp [Cause, Ctx.Value, hstf, hstfc]
  · intro j st x hjst hx
    by_cases hj : j = w.nextCancel
    · subst hj
      rw [hstf] at hjst
      cases hjst
      simp [hstfk] at hx
    · cases h1 : ((newCancelCtx parent w).2).cancels j with
      | none =>
        rw [hnone2 j h1] at hjst
        exact Option.noConfusion hjst
      | some st1 =>
        obtain ⟨st2, h2, _, _, _, _, hmem⟩ := hsome2 j st1 h1 hj
        have hse : st2 = st := Option.some.inj (h2.symm.trans hjst)
        rw [hse] at hmem
        exact ⟨st1, rfl, hmem x hx⟩

/-- C2 witness: P is created and canceled, then a child is derived
from the dead parent; the child is born canceled with the parent
error and cause. -/
theorem withCancel_from_canceled_parent_witness :
    ∃ w2, (WithCancel ctxP wPB).2 = some w2 ∧
      Ctx.Err (WithCancel ctxP wPB).1 w2 = some Canceled ∧
      Cause (WithCancel ctxP wPB).1 w2 = some Canceled ∧
      (∀ j st x, w2.cancels j = some st → x ∈ st.children.getD [] →
        ∃ st0, ((newCancelCtx ctxP wPB).2).cancels j = some st0 ∧
          x ∈ st0.children.getD []) :=
  withCancel_from_canceled_parent ctxP wPB 0 Canceled Canceled rfl (by decide) (by decide)
    (by decide)

/-- C3: once a cancelCtx has a non nil error, every further cancel
call with any non nil err and any cause returns at the early check
and leaves the whole state untouched: exactly one cancellation is
ever recorded. -/
theorem cancel_already_canceled_noop (w : World) (id : Nat) (p : Ctx) (st : CancelState)
    (e0 e : GoErr) (b : Bool) (co : Option GoErr)
    (hst : w.cancels id = some st) (he : st.err = some e0) :
    cancelCtxCancel (Ctx.cancel id p) b (some e) co w = some w := by
  have hs : st.err.isSome = true := by rw [he]; rfl
  show cancelRec (w.nextCancel + 1) id b p (some e) co w = some w
  simp [cancelRec, hst, hs]

/-- C3 witness: canceling the already canceled P again with a fresh
error changes nothing. -/
theorem cancel_already_canceled_noop_witness :
    cancelCtxCancel (Ctx.cancel 0 Ctx.background) true (some (GoErr.mk 7)) none wC = some wC :=
  cancel_already_canceled_noop wC 0 Ctx.background ⟨some 1, some Canceled, some Canceled, none⟩
    Canceled (GoErr.mk 7) true none (by decide) rfl

/-- C4: Done called twice returns the identical channel and never
replaces a published channel (first conjunct, for every node and
state), and after an effective cancel, Done returns a channel that is
already fired (second conjunct). -/
theorem done_identity_and_fired_after_cancel (id : Nat) (p : Ctx) (w : World) (st : CancelState)
    (b : Bool) (e : GoErr) (co : Option GoErr)
    (hst : w.cancels id = some st) (he : st.err = none) (hk : st.children = none)
    (hd : ∀ d, st.done = some d → d ∉ w.closed) (hcc : closedchan ∈ w.closed) :
    (∀ c w0, Ctx.Done c (Ctx.Done c w0).2 = Ctx.Done c w0) ∧
    (∃ w3 ch, cancelCtxCancel (Ctx.cancel id p) b (some e) co w = some w3 ∧
      Ctx.Done (Ctx.cancel id p) w3 = (some ch, w3) ∧ ch ∈ w3.closed) := by
  refine ⟨Done_idem, ?_⟩
  obtain ⟨w3, ch, hrun, ⟨stf, hstf, hstfd, _, _, _⟩, hcin, _, _, _⟩ :=
    cancelRec_step w.nextCancel id b p e co w st hst he hk hd
  refine ⟨w3, ch, hrun, ?_, hcin hcc⟩
  simp [Ctx.Done, hstf, hstfd]

/-- C4 witness: canceling the fresh P fires its done channel and Done
returns that fired channel. -/
theorem done_identity_and_fired_after_cancel_witness :
    ∃ w3 ch, cancelCtxCancel (Ctx.cancel 0 Ctx.background) true (some Canceled) none wA
        = some w3 ∧
      Ctx.Done (Ctx.cancel 0 Ctx.background) w3 = (some ch, w3) ∧ ch ∈ w3.closed :=
  (done_identity_and_fired_after_cancel 0 Ctx.background wA ⟨none, none, none, none⟩ true
    Canceled none (by decide) rfl rfl (fun d hdd => Option.noConfusion hdd) (by decide)).2

/-- C5: Cause returns the cause recorded in the nearest enclosing
CancelScope found by the sentinel key lookup along the parent chain,
and returns nil when no CancelScope ancestor exists, for every chain
that carries no forged sentinel key (the sentinel is unexported, so
every externally built chain qualifies). -/
theorem cause_resolves_nearest_cancelScope (c : Ctx) (w : World)
    (h : noSentinelKeys c = true) :
    Cause c w =
      (specNearestCancel c).bind (fun id => Option.bind (w.cancels id) CancelState.cause) := by
  unfold Cause
  rw [method_value_eq, value_sentinel c h]
  cases hs : specNearestCancel c with
  | none => rfl
  | some id => rfl

/-- C5 witness: on the value wrapper G above the canceled tree, Cause
agrees with the cause of the nearest cancel scope. -/
theorem cause_resolves_nearest_cancelScope_witness :
    Cause ctxG wC =
      (specNearestCancel ctxG).bind (fun id => Option.bind (wC.cancels id) CancelState.cause) :=
  cause_resolves_nearest_cancelScope ctxG wC (by decide)

/-- C6: the Value walk is a total structural recursion (it cannot
loop: every chain is finite and ends at an empty scope), and for a
key stored at no node of the chain - and distinct from the private
sentinel, which an external caller cannot hold - both the Value
method and the free lookup return nil. -/
theorem value_unregistered_key_nil (c : Ctx) (key : GoVal)
    (hk : key ≠ GoVal.sentinel) (ha : keyAbsent c key = true) :
    Ctx.Value c key = GoVal.nil ∧ value c key = GoVal.nil := by
  have h2 := value_absent c key hk ha
  exact ⟨(method_value_eq c key).trans h2, h2⟩

/-- C6 witness: an unregistered key on the demonstration chain
resolves to nil. -/
theorem value_unregistered_key_nil_witness :
    Ctx.Value ctxG (GoVal.str "zz") = GoVal.nil ∧ value ctxG (GoVal.str "zz") = GoVal.nil :=
  value_unregistered_key_nil ctxG (GoVal.str "zz") (by decide) (by decide)

/-- C7: cancel with a nil err panics for every receiver, flag and
cause (first conjunct); with a non nil err and a nil cause the
recorded cause equals the recorded err (second conjunct). -/
theorem cancel_nil_err_panics_and_cause_defaults (id : Nat) (p : Ctx) (b : Bool) (e : GoErr)
    (w : World) (st : CancelState)
    (hst : w.cancels id = some st) (he : st.err = none) (hk : st.children = none)
    (hd : ∀ d, st.done = some d → d ∉ w.closed) :
    (∀ co, cancelCtxCancel (Ctx.cancel id p) b none co w = none) ∧
    (∃ w3, cancelCtxCancel (Ctx.cancel id p) b (some e) none w = some w3 ∧
      Ctx.Err (Ctx.cancel id p) w3 = some e ∧
      Cause (Ctx.cancel id p) w3 = some e) := by
  constructor
  · intro co
    rfl
  · obtain ⟨w3, ch, hrun, ⟨stf, hstf, _, hstfe, hstfc, _⟩, _, _, _, _⟩ :=
      cancelRec_step w.nextCancel id b p e none w st hst he hk hd
    refine ⟨w3, hrun, ?_, ?_⟩
    · simp [Ctx.Err, hstf, hstfe]
    · simp [Cause, Ctx.Value, hstf, hstfc]

/-- C7 witness: canceling the fresh P with a caller error and no
cause records that error as both err and cause. -/
theorem cancel_nil_err_panics_and_cause_defaults_witness :
    ∃ w3, cancelCtxCancel (Ctx.cancel 0 Ctx.background) true (some (GoErr.mk 5)) none wA
        = some w3 ∧
      Ctx.Err (Ctx.cancel 0 Ctx.background) w3 = some (GoErr.mk 5) ∧
      Cause (Ctx.cancel 0 Ctx.background) w3 = some (GoErr.mk 5) :=
  (cancel_nil_err_panics_and_cause_defaults 0 Ctx.background true (GoErr.mk 5) wA
    ⟨none, none, none, none⟩ (by decide) rfl rfl (fun d hdd => Option.noConfusion hdd)).2

/-- C8: cancel mutates only the mutable cancelCtx records and the
closed set: it never allocates or frees a record (first conjunct),
and value resolution is untouched - Ctx.Value reads no World at all
in this embedding, exactly because valueCtx keys and values are
immutable in the source - so in the spec scenario the value attached
at G still resolves to 1 after P is canceled (second conjunct
evaluates that trace end to end). -/
theorem cancel_leaves_value_resolution :
    (∀ w c b eo co w2, cancelCtxCancel c b eo co w = some w2 →
      w2.nextCancel = w.nextCancel ∧ ∀ j, (w2.cancels j).isSome = (w.cancels j).isSome) ∧
    (WithValue ctxC (GoVal.str "a") (GoVal.int 1) = some ctxG ∧
     cancelFn ctxP wB = some wC ∧
     Ctx.Value ctxG (GoVal.str "a") = GoVal.int 1 ∧
     Ctx.Err ctxP wC = some Canceled) := by
  constructor
  · intro w c b eo co w2 h
    cases c with
    | cancel id p => exact cancelRec_frame (w.nextCancel + 1) id b p eo co w w2 h
    | background => exact Option.noConfusion h
    | todo => exact Option.noConfusion h
    | value p k v => exact Option.noConfusion h
  · exact ⟨by decide, rfl, by decide, by decide⟩

/-- C8 witness: the frame part applied to the concrete cancellation
of P in the demonstration trace. -/
theorem cancel_leaves_value_resolution_witness :
    wC.nextCancel = wB.nextCancel :=
  (cancel_leaves_value_resolution.1 wB ctxP true (some Canceled) none wC rfl).1

/-- C9: a valueCtx overrides only Value and String; Done, Err and
Deadline are the promoted methods of the embedded parent, so they
agree with the parent on every state. -/
theorem valueCtx_promotes_parent_operations (p : Ctx) (k v : GoVal) (w : World) :
    Ctx.Done (Ctx.value p k v) w = Ctx.Done p w ∧
    Ctx.Err (Ctx.value p k v) w = Ctx.Err p w ∧
    Ctx.Deadline (Ctx.value p k v) w = Ctx.Deadline p w :=
  ⟨rfl, rfl, rfl⟩

/-- C10: WithValue validates only the parent and the key, so a nil
value is accepted, and Value on the matching key then returns nil,
indistinguishable from an absent key. -/
theorem withValue_accepts_nil_value (parent : Ctx) (key : GoVal) (hk : key ≠ GoVal.nil) :
    WithValue parent key GoVal.nil = some (Ctx.value parent key GoVal.nil) ∧
    Ctx.Value (Ctx.value parent key GoVal.nil) key = GoVal.nil := by
  constructor
  · simp [WithValue, hk]
  · simp [Ctx.Value]

/-- C10 witness: attaching a nil value under a string key. -/
theorem withValue_accepts_nil_value_witness :
    WithValue Ctx.background (GoVal.str "k") GoVal.nil
      = some (Ctx.value Ctx.background (GoVal.str "k") GoVal.nil) ∧
    Ctx.Value (Ctx.value Ctx.background (GoVal.str "k") GoVal.nil) (GoVal.str "k")
      = GoVal.nil :=
  withValue_accepts_nil_value Ctx.background (GoVal.str "k") (by decide)

end ReContext
